import Mathlib

/-!
Verification development for the IMD1 repository.

The repository's visible source is the C driver
`src/examples/01-hello-world/main.c`, which reads `input.md`, calls the
conversion entry point `C_IMD1_MDToHTML`, writes the returned HTML to
`output.html` via `fprintf`, and frees the two returned values.  The
conversion core itself is not part of the visible source; following the
specification it is modelled here as a pure, total function on byte
sequences (bytes are `Nat` values, UTF-8 is never decoded, so arbitrary
byte sequences - including invalid UTF-8 - are representable).
-/

namespace IMD1

/-- Bytes of an ASCII string literal (for ASCII text, UTF-8 bytes coincide
with code points). -/
def strBytes (s : String) : List Nat :=
  s.data.map Char.toNat

/-- `escByte b` is the HTML entity escape of byte `b`: `&`, `<`, `>`, `"`
become their entities, every other byte passes through verbatim.
Modelled from the spec: the renderer escapes `&`, `<`, `>`, `"` in literal
text. -/
def escByte (b : Nat) : List Nat :=
  if b = 38 then strBytes "&amp;"
  else if b = 60 then strBytes "&lt;"
  else if b = 62 then strBytes "&gt;"
  else if b = 34 then strBytes "&quot;"
  else [b]

/-- Entity-escape a whole byte sequence. -/
def escBytes (l : List Nat) : List Nat :=
  (l.map escByte).flatten

/-- Line-break kind. Modelled from the spec: `LineBreak(hard|soft)`. -/
inductive BreakKind where
  | hard
  | soft
deriving Repr

/-- Inline node. Modelled from the spec, section 3: tagged variant over
Text, Emphasis, Strong, CodeSpan, Link, Image, LineBreak, RawInlineHTML,
Escaped. -/
inductive Inline where
  | Text (literal : List Nat)
  | Emphasis (children : List Inline)
  | Strong (children : List Inline)
  | CodeSpan (literal : List Nat)
  | Link (dest : List Nat) (title : Option (List Nat)) (children : List Inline)
  | Image (dest : List Nat) (title : Option (List Nat)) (alt : List Nat)
  | LineBreak (kind : BreakKind)
  | RawInlineHTML (literal : List Nat)
  | Escaped (c : Nat)
deriving Repr

/-- Block node. Modelled from the spec, section 3: tagged variant over
Heading, Paragraph, CodeBlock, BlockQuote, List, ListItem, ThematicBreak,
RawHTMLBlock. -/
inductive Block where
  | Heading (level : Nat) (content : List Inline)
  | Paragraph (content : List Inline)
  | CodeBlock (info : List Nat) (text : List Nat) (fenced : Bool)
  | BlockQuote (children : List Block)
  | ListB (ordered : Bool) (startNum : Nat) (tight : Bool) (items : List Block)
  | ListItem (children : List Block)
  | ThematicBreak
  | RawHTMLBlock (literal : List Nat)
deriving Repr

mutual

/-- Render one inline node to HTML bytes. Modelled from the spec,
section 4.4: literal text is entity-escaped, raw HTML nodes are emitted
verbatim, tag pairs for em/strong/code/a/img, hard break `<br />` plus
newline, soft break newline. -/
def renderInline : Inline → List Nat
  | .Text s => escBytes s
  | .Emphasis cs => strBytes "<em>" ++ renderInlines cs ++ strBytes "</em>"
  | .Strong cs => strBytes "<strong>" ++ renderInlines cs ++ strBytes "</strong>"
  | .CodeSpan s => strBytes "<code>" ++ escBytes s ++ strBytes "</code>"
  | .Link dest title cs =>
      strBytes "<a href=\"" ++ escBytes dest ++ strBytes "\"" ++
      (match title with
       | some t => strBytes " title=\"" ++ escBytes t ++ strBytes "\""
       | none => []) ++
      strBytes ">" ++ renderInlines cs ++ strBytes "</a>"
  | .Image dest title alt =>
      strBytes "<img src=\"" ++ escBytes dest ++ strBytes "\" alt=\"" ++
      escBytes alt ++ strBytes "\"" ++
      (match title with
       | some t => strBytes " title=\"" ++ escBytes t ++ strBytes "\""
       | none => []) ++
      strBytes " />"
  | .LineBreak .hard => strBytes "<br />\n"
  | .LineBreak .soft => strBytes "\n"
  | .RawInlineHTML s => s
  | .Escaped c => escByte c

/-- Render an inline sequence left-to-right. -/
def renderInlines : List Inline → List Nat
  | [] => []
  | x :: xs => renderInline x ++ renderInlines xs

end

mutual

/-- Render one block node to HTML bytes, with a trailing newline after the
block. Modelled from the spec, section 4.4. -/
def renderBlock : Block → List Nat
  | .Heading n cs =>
      strBytes "<h" ++ [48 + n] ++ strBytes ">" ++ renderInlines cs ++
      strBytes "</h" ++ [48 + n] ++ strBytes ">\n"
  | .Paragraph cs => strBytes "<p>" ++ renderInlines cs ++ strBytes "</p>\n"
  | .CodeBlock _ text _ =>
      strBytes "<pre><code>" ++ escBytes text ++ strBytes "</code></pre>\n"
  | .BlockQuote bs =>
      strBytes "<blockquote>\n" ++ renderBlocks bs ++ strBytes "</blockquote>\n"
  | .ListB ordered _ _ items =>
      (if ordered then strBytes "<ol>\n" else strBytes "<ul>\n") ++
      renderBlocks items ++
      (if ordered then strBytes "</ol>\n" else strBytes "</ul>\n")
  | .ListItem bs => strBytes "<li>" ++ renderBlocks bs ++ strBytes "</li>\n"
  | .ThematicBreak => strBytes "<hr />\n"
  | .RawHTMLBlock s => s ++ strBytes "\n"

/-- Render a block sequence in order. -/
def renderBlocks : List Block → List Nat
  | [] => []
  | b :: bs => renderBlock b ++ renderBlocks bs

end

/-- Diagnostic entry. Modelled from the spec, section 6: diagnostics
entries are (severity, message, byte-offset) tuples. -/
structure Diagnostic where
  severity : Nat
  message : List Nat
  offset : Nat
deriving DecidableEq, Repr

/-- The diagnostic recorded for a fenced code block left unterminated at
end-of-input. Modelled from the spec, sections 4.2 and 8. -/
def fenceDiag : Diagnostic :=
  ⟨1, strBytes "unterminated fenced code block", 0⟩

/-- Split raw input bytes into lines at byte 10; a trailing newline does
not produce an extra empty line. -/
def splitB : List Nat → List (List Nat)
  | [] => [[]]
  | 10 :: rest => [] :: splitB rest
  | c :: rest =>
    match splitB rest with
    | [] => [[c]]
    | l :: ls => (c :: l) :: ls

/-- Strip a trailing carriage-return byte (13) from a line. -/
def stripCR (l : List Nat) : List Nat :=
  if l.getLast? = some 13 then l.dropLast else l

/-- Line scanner. Modelled from the spec, section 4.1: splits raw input
into logical lines with the trailing line terminator stripped; never
fails; an empty input yields zero lines. -/
def scanLines (input : List Nat) : List (List Nat) :=
  if input = [] then []
  else
    let ls := splitB input
    (if ls.getLast? = some [] then ls.dropLast else ls).map stripCR

/-- Count how many leading bytes of `l` equal `b`. -/
def countLeading (b : Nat) : List Nat → Nat
  | [] => 0
  | c :: cs => if c = b then countLeading b cs + 1 else 0

/-- ASCII whitespace bytes (space and tab). -/
def isWS (b : Nat) : Bool :=
  b = 32 || b = 9

/-- A blank line consists only of whitespace bytes. -/
def isBlankLine (l : List Nat) : Bool :=
  l.all isWS

/-- Drop leading whitespace bytes. -/
def trimLeft (l : List Nat) : List Nat :=
  l.dropWhile isWS

/-- Drop trailing whitespace bytes. -/
def trimRight (l : List Nat) : List Nat :=
  (l.reverse.dropWhile isWS).reverse

/-- Drop whitespace at both ends. -/
def trimBoth (l : List Nat) : List Nat :=
  trimRight (trimLeft l)

/-- Recognize an ATX heading line. Modelled from the spec, section 4.2:
`#`×1–6 followed by a space opens a heading; the rest of the line is the
heading's inline text. -/
def atxHeading (l : List Nat) : Option (Nat × List Nat) :=
  let n := countLeading 35 l
  if 1 ≤ n ∧ n ≤ 6 ∧ (l.drop n).head? = some 32 then
    some (n, trimBoth (l.drop n))
  else
    none

/-- State of an open fenced code block: fence byte (backtick or tilde),
opening run length, info string, accumulated content lines (reversed). -/
structure FenceState where
  ch : Nat
  len : Nat
  info : List Nat
  content : List (List Nat)
deriving DecidableEq, Repr

/-- Recognize a fence-opening line. Modelled from the spec, section 4.2:
three or more backticks or tildes open a fenced code block; the remainder
of the line is the info string. -/
def fenceOpen (l : List Nat) : Option FenceState :=
  match l.head? with
  | some b =>
    if b = 96 ∨ b = 126 then
      let n := countLeading b l
      if 3 ≤ n then some ⟨b, n, trimBoth (l.drop n), []⟩ else none
    else none
  | none => none

/-- Does line `l` close the open fence `f`? A run of at least `f.len`
fence bytes, with nothing but whitespace around it. -/
def fenceClose (f : FenceState) (l : List Nat) : Bool :=
  let t := trimBoth l
  t ≠ [] && t.all (· = f.ch) && f.len ≤ t.length

/-- Join lines with newline bytes, with a trailing newline after each
line (the literal text of a code block). -/
def joinNL (ls : List (List Nat)) : List Nat :=
  (ls.map (· ++ [10])).flatten

/-- Join lines with a newline separator (no trailing newline): the
literal text span of a paragraph. -/
def joinSep : List (List Nat) → List Nat
  | [] => []
  | [l] => l
  | l :: ls => l ++ [10] ++ joinSep ls

/-- Lower-case an ASCII byte. -/
def lowerByte (b : Nat) : Nat :=
  if 65 ≤ b ∧ b ≤ 90 then b + 32 else b

/-- Worker for `collapseWS`: `inWS` records whether the previous byte was
whitespace (in which case further whitespace is skipped). -/
def collapseWSAux (inWS : Bool) : List Nat → List Nat
  | [] => []
  | c :: cs =>
    if isWS c then
      if inWS then collapseWSAux true cs else 32 :: collapseWSAux true cs
    else c :: collapseWSAux false cs

/-- Collapse runs of whitespace bytes into single spaces. -/
def collapseWS (l : List Nat) : List Nat :=
  collapseWSAux false l

/-- Normalize a reference label: case-fold ASCII letters, collapse
whitespace, trim the ends. Modelled from the spec, section 3: label
case-folded and whitespace-collapsed, used as key. -/
def normLabel (l : List Nat) : List Nat :=
  collapseWS (trimBoth (l.map lowerByte))

/-- A link-reference definition: label, destination, optional title. -/
structure RefDef where
  label : List Nat
  dest : List Nat
  title : Option (List Nat)
deriving DecidableEq, Repr

/-- The reference table: an association list from normalized label to
(destination, title). -/
abbrev RefTable := List (List Nat × List Nat × Option (List Nat))

/-- Look up a normalized key in the reference table. -/
def lookupRef (tbl : RefTable) (key : List Nat) : Option (List Nat × Option (List Nat)) :=
  match tbl with
  | [] => none
  | (k, d, t) :: rest => if k = key then some (d, t) else lookupRef rest key

/-- Insert a reference definition into the table. Modelled from the spec,
section 3: later definitions with a duplicate (normalized) key are
ignored — the first definition wins. -/
def insertRef (tbl : RefTable) (d : RefDef) : RefTable :=
  match lookupRef tbl (normLabel d.label) with
  | some _ => tbl
  | none => tbl ++ [(normLabel d.label, d.dest, d.title)]

/-- Recognize a reference-definition line `[label]: destination "title"`.
Modelled from the spec, section 4.2. -/
def parseRefDef (l : List Nat) : Option RefDef :=
  match trimLeft l with
  | 91 :: rest =>
    let lab := rest.takeWhile (· ≠ 93)
    match rest.drop lab.length with
    | 93 :: 58 :: rest2 =>
      let afterColon := trimLeft rest2
      let dest := afterColon.takeWhile (fun b => ¬ isWS b)
      if dest = [] then none
      else
        let rest3 := trimBoth (afterColon.drop dest.length)
        match rest3 with
        | [] => some ⟨lab, dest, none⟩
        | 34 :: tl =>
          if tl.getLast? = some 34 then some ⟨lab, dest, some tl.dropLast⟩
          else none
        | _ => none
    | _ => none
  | _ => none

/-- Find the first run of exactly `n` bytes `b` in `l`; on success return
the bytes before the run and the bytes after it. Modelled from the spec,
section 4.3: the shortest matching backtick run of equal length closes a
code span. -/
def splitAtRunAux (b n : Nat) : Nat → List Nat → Option (List Nat × List Nat)
  | 0, _ => none
  | _, [] => none
  | fuel + 1, c :: cs =>
    if c = b then
      let k := countLeading b cs + 1
      let rest := cs.drop (k - 1)
      if k = n then some ([], rest)
      else
        match splitAtRunAux b n fuel rest with
        | some (content, r) => some (List.replicate k b ++ content, r)
        | none => none
    else
      match splitAtRunAux b n fuel cs with
      | some (content, r) => some (c :: content, r)
      | none => none

/-- `splitAtRun` entry point; fuel one more than the span length always
suffices, as each step consumes at least one byte. -/
def splitAtRun (b n : Nat) (l : List Nat) : Option (List Nat × List Nat) :=
  splitAtRunAux b n (l.length + 1) l

/-- Inline parser worker, fuel-indexed; each step consumes at least one
byte, so fuel `n + 1` on an `n`-byte span reaches the end. Modelled from
the spec, section 4.3: code spans are resolved first and atomically (the
spanned text is never rescanned); unmatched backtick runs degrade to
literal text. -/
def parseInlinesAux : Nat → List Nat → List Inline
  | 0, _ => []
  | _, [] => []
  | fuel + 1, c :: cs =>
    if c = 96 then
      let n := countLeading 96 cs + 1
      let rest := cs.drop (n - 1)
      match splitAtRun 96 n rest with
      | some (content, rest2) =>
        Inline.CodeSpan content :: parseInlinesAux fuel rest2
      | none =>
        Inline.Text (List.replicate n 96) :: parseInlinesAux fuel rest
    else
      let txt := (c :: cs).takeWhile (· ≠ 96)
      Inline.Text txt :: parseInlinesAux fuel ((c :: cs).drop txt.length)

/-- Inline parser entry point for one leaf block's literal text span. -/
def parseInlines (l : List Nat) : List Inline :=
  parseInlinesAux (l.length + 1) l

/-- Block-parser state: finished blocks (reversed), open paragraph lines
(reversed), open fenced code block, reference table. Modelled from the
spec, section 4.2 (line-at-a-time state machine). -/
structure PState where
  done : List Block
  para : List (List Nat)
  fence : Option FenceState
  refs : RefTable

/-- The initial parser state. -/
def initState : PState :=
  ⟨[], [], none, []⟩

/-- Close the open paragraph, if any, running the inline parser on its
joined text span. -/
def closePara (st : PState) : PState :=
  match st.para with
  | [] => st
  | _ =>
    { st with
      para := [],
      done := Block.Paragraph (parseInlines (joinSep st.para.reverse)) :: st.done }

/-- Consume one logical line. Modelled from the spec, section 4.2:
inside an open fence, a matching closing fence ends the code block and
any other line is accumulated verbatim; otherwise lines are classified in
priority order (ATX heading, fence open, reference definition at a
paragraph-candidate start, paragraph continuation, blank line closing the
paragraph); an unrecognized pattern always falls through to paragraph
continuation. -/
def stepLine (st : PState) (l : List Nat) : PState :=
  match st.fence with
  | some f =>
    if fenceClose f l then
      { st with
        fence := none,
        done := Block.CodeBlock f.info (joinNL f.content.reverse) true :: st.done }
    else
      { st with fence := some { f with content := l :: f.content } }
  | none =>
    if isBlankLine l then closePara st
    else
      match atxHeading l with
      | some (n, rest) =>
        let st1 := closePara st
        { st1 with done := Block.Heading n (parseInlines rest) :: st1.done }
      | none =>
        match fenceOpen l with
        | some f =>
          let st1 := closePara st
          { st1 with fence := some f }
        | none =>
          if st.para = [] then
            match parseRefDef l with
            | some d => { st with refs := insertRef st.refs d }
            | none => { st with para := [l] }
          else
            { st with para := l :: st.para }

/-- Run the block parser over all scanned lines of an input. -/
def parseRun (input : List Nat) : PState :=
  (scanLines input).foldl stepLine initState

/-- Finalize the parser state at end-of-input. Modelled from the spec,
section 4.2: a fenced code block left unterminated at end-of-input is
closed implicitly at the document boundary and recorded as a diagnostic;
an open paragraph is closed. -/
def finalize (st : PState) : List Block × List Diagnostic :=
  let st1 := closePara st
  match st1.fence with
  | some f =>
    ((Block.CodeBlock f.info (joinNL f.content.reverse) true :: st1.done).reverse,
     [fenceDiag])
  | none => (st1.done.reverse, [])

/-- Modelled from the spec: the conversion entry point
`C_IMD1_MDToHTML` of the IMD1 core, whose implementation is not part of
the visible source. `Convert(markupText: byte-sequence) ->
(html: owned string, diagnostics: owned list)`: scanner, block parser
(collecting the reference table), inline parser, HTML renderer — a pure,
total function of the input bytes. -/
def Convert (input : List Nat) : List Nat × List Diagnostic :=
  let st := parseRun input
  let (blocks, diags) := finalize st
  (renderBlocks blocks, diags)

/-! ## The driver (src/examples/01-hello-world/main.c) -/

/-- The return structure of the conversion entry point, from
`struct C_IMD1_MDToHTML_return` in main.c: `r0` is the HTML string,
`r1` the second owned value (diagnostics). -/
structure MDReturn (α : Type) where
  r0 : List Nat
  r1 : α

/-- Output of `fprintf(fout, s)` called with `s` as the FORMAT string and
no variadic arguments (main.c line 51): bytes other than `%` (37) are
copied through; `%%` emits a single `%`; any other conversion
specification consumes a missing argument, so its output is not
determined by the format string — it is modelled by an arbitrary handler
`h` mapping the specifier byte to the emitted bytes. -/
def fprintfOut (h : Nat → List Nat) : List Nat → List Nat
  | [] => []
  | c :: rest =>
    if c = 37 then
      match rest with
      | [] => []
      | c2 :: rest2 =>
        if c2 = 37 then 37 :: fprintfOut h rest2
        else h c2 ++ fprintfOut h rest2
    else c :: fprintfOut h rest

/-- Observable events of one driver run: the conversion call with its
argument, the bytes written to output.html, and the two `free` calls on
the returned values (main.c lines 43, 51, 55, 56). -/
inductive Ev where
  | convCall (arg : List Nat)
  | writeOut (bytes : List Nat)
  | free0
  | free1
deriving DecidableEq, Repr

/-- Environment of one driver run: whether `fopen("input.md", "r+")`
succeeds, the bytes of input.md (so `size = contents.length` as obtained
by fseek/ftell), whether `malloc(size + 1)` succeeds, whether
`fopen("output.html", "w+")` succeeds, and the handler giving the
unspecified output of `fprintf` conversions with missing arguments. -/
structure Env where
  finOk : Bool
  contents : List Nat
  allocOk : Bool
  foutOk : Bool
  fmt : Nat → List Nat

/-- Shallow embedding of `main` from src/examples/01-hello-world/main.c,
parameterized by the conversion function `conv` (the external
`C_IMD1_MDToHTML`). Returns the exit status and the event trace:
  - `fopen("input.md")` fails → return -1 (lines 25-29);
  - `malloc(size + 1)` fails → return -1 (lines 33-37);
  - otherwise the buffer is the file bytes followed by a terminating 0
    (lines 38-39) and the conversion is called on it (line 43);
  - `fopen("output.html")` fails → return -1 (lines 46-50), without
    freeing the returned values;
  - otherwise `fprintf(fout, r.r0)` writes the output (line 51), both
    returned values are freed (lines 55-56) and 0 is returned. -/
def mainModel {α : Type} (conv : List Nat → MDReturn α) (env : Env) :
    Int × List Ev :=
  if env.finOk = false then (-1, [])
  else if env.allocOk = false then (-1, [])
  else
    let buffer := env.contents ++ [0]
    let r := conv buffer
    if env.foutOk = false then (-1, [Ev.convCall buffer])
    else
      (0, [Ev.convCall buffer, Ev.writeOut (fprintfOut env.fmt r.r0),
           Ev.free0, Ev.free1])

/-- The argument of the first conversion call in a trace, if any. -/
def convArg : List Ev → Option (List Nat)
  | [] => none
  | Ev.convCall a :: _ => some a
  | _ :: rest => convArg rest

/-- The bytes of the first output-write event in a trace, if any. -/
def writtenBytes : List Ev → Option (List Nat)
  | [] => none
  | Ev.writeOut b :: _ => some b
  | _ :: rest => writtenBytes rest

/-- Number of `free(r.r0)` events in a trace. -/
def countFree0 (t : List Ev) : Nat :=
  t.countP (fun e => match e with | Ev.free0 => true | _ => false)

/-- Number of `free(r.r1)` events in a trace. -/
def countFree1 (t : List Ev) : Nat :=
  t.countP (fun e => match e with | Ev.free1 => true | _ => false)

/-- The modelled core packaged in the driver's return shape. -/
def convModel (b : List Nat) : MDReturn (List Diagnostic) :=
  ⟨(Convert b).1, (Convert b).2⟩

/-- Does the byte sequence start with `pat`? -/
def startsWith : List Nat → List Nat → Bool
  | [], _ => true
  | _ :: _, [] => false
  | a :: pat, b :: l => a = b && startsWith pat l

/-- Does the byte sequence contain `pat` as a contiguous subsequence? -/
def containsSeq (pat : List Nat) : List Nat → Bool
  | [] => startsWith pat []
  | c :: cs => startsWith pat (c :: cs) || containsSeq pat cs

/-! ## Helper lemmas -/

theorem fprintfOut_no_percent (h : Nat → List Nat) :
    ∀ s : List Nat, 37 ∉ s → fprintfOut h s = s
  | [], _ => rfl
  | c :: rest, hm => by
    have hc : ¬ c = 37 := fun e => hm (by simp [e])
    unfold fprintfOut
    rw [if_neg hc]
    rw [fprintfOut_no_percent h rest (fun m => hm (List.mem_cons_of_mem _ m))]

theorem closePara_refs (st : PState) : (closePara st).refs = st.refs := by
  obtain ⟨done, para, fence, refs⟩ := st
  cases para <;> rfl

theorem closePara_fence (st : PState) : (closePara st).fence = st.fence := by
  obtain ⟨done, para, fence, refs⟩ := st
  cases para <;> rfl

theorem lookupRef_append (tbl tbl2 : RefTable) (k : List Nat) :
    lookupRef (tbl ++ tbl2) k =
      match lookupRef tbl k with
      | some v => some v
      | none => lookupRef tbl2 k := by
  induction tbl with
  | nil => rfl
  | cons hd tl ih =>
    obtain ⟨k', d, t⟩ := hd
    by_cases h : k' = k <;> simp [lookupRef, h, ih]

theorem lookupRef_insertRef_preserve (tbl : RefTable) (d : RefDef)
    (k : List Nat) (v : List Nat × Option (List Nat))
    (h : lookupRef tbl k = some v) :
    lookupRef (insertRef tbl d) k = some v := by
  unfold insertRef
  cases hl : lookupRef tbl (normLabel d.label) with
  | some _ => exact h
  | none => rw [lookupRef_append, h]

theorem insertRef_duplicate (tbl : RefTable) (d : RefDef)
    (v : List Nat × Option (List Nat))
    (h : lookupRef tbl (normLabel d.label) = some v) :
    insertRef tbl d = tbl := by
  unfold insertRef
  rw [h]

theorem lookupRef_insertRef_new (tbl : RefTable) (d : RefDef)
    (h : lookupRef tbl (normLabel d.label) = none) :
    lookupRef (insertRef tbl d) (normLabel d.label) = some (d.dest, d.title) := by
  unfold insertRef
  rw [h, lookupRef_append, h]
  simp [lookupRef]

theorem lookupRef_insertRef_other (tbl : RefTable) (d : RefDef) (k : List Nat)
    (hk : ¬ normLabel d.label = k) (h : lookupRef tbl k = none) :
    lookupRef (insertRef tbl d) k = none := by
  unfold insertRef
  cases hl : lookupRef tbl (normLabel d.label) with
  | some _ => exact h
  | none =>
    rw [lookupRef_append, h]
    simp [lookupRef, hk]

/-- The first reference definition in a list whose normalized label is a
given key. -/
def firstDef (k : List Nat) : List RefDef → Option RefDef
  | [] => none
  | d :: ds => if normLabel d.label = k then some d else firstDef k ds

theorem foldl_insertRef_preserve :
    ∀ (defs : List RefDef) (tbl : RefTable) (k : List Nat)
      (v : List Nat × Option (List Nat)),
      lookupRef tbl k = some v →
      lookupRef (defs.foldl insertRef tbl) k = some v
  | [], _, _, _, h => h
  | d :: ds, tbl, k, v, h =>
    foldl_insertRef_preserve ds _ k v (lookupRef_insertRef_preserve tbl d k v h)

theorem foldl_insertRef_first :
    ∀ (defs : List RefDef) (tbl : RefTable) (k : List Nat) (d : RefDef),
      lookupRef tbl k = none → firstDef k defs = some d →
      lookupRef (defs.foldl insertRef tbl) k = some (d.dest, d.title)
  | [], _, _, _, _, hf => by simp [firstDef] at hf
  | d0 :: ds, tbl, k, d, hn, hf => by
    by_cases he : normLabel d0.label = k
    · have hd : d = d0 := by
        have := hf
        simp [firstDef, he] at this
        exact this.symm
      subst hd
      rw [List.foldl_cons]
      apply foldl_insertRef_preserve
      have hnew := lookupRef_insertRef_new tbl d (by rw [he]; exact hn)
      rwa [he] at hnew
    · have hf' : firstDef k ds = some d := by
        have := hf
        simpa [firstDef, he] using this
      exact foldl_insertRef_first ds _ k d
        (lookupRef_insertRef_other tbl d0 k he hn) hf'

theorem stepLine_refs_cases (st : PState) (l : List Nat) :
    (stepLine st l).refs = st.refs ∨
      ∃ d : RefDef, (stepLine st l).refs = insertRef st.refs d := by
  obtain ⟨done, para, fence, refs⟩ := st
  cases fence with
  | some f =>
    by_cases hc : fenceClose f l <;> simp [stepLine, hc]
  | none =>
    by_cases hb : isBlankLine l
    · simp [stepLine, hb, closePara_refs]
    · cases ha : atxHeading l with
      | some v => simp [stepLine, hb, ha, closePara_refs]
      | none =>
        cases hfo : fenceOpen l with
        | some f => simp [stepLine, hb, ha, hfo, closePara_refs]
        | none =>
          by_cases hp : para = ([] : List (List Nat))
          · cases hd : parseRefDef l with
            | some d =>
              right
              exact ⟨d, by simp [stepLine, hb, ha, hfo, hp, hd]⟩
            | none => simp [stepLine, hb, ha, hfo, hp, hd]
          · simp [stepLine, hb, ha, hfo, hp]

theorem foldl_stepLine_refs_preserve :
    ∀ (ls : List (List Nat)) (st : PState) (k : List Nat)
      (v : List Nat × Option (List Nat)),
      lookupRef st.refs k = some v →
      lookupRef (ls.foldl stepLine st).refs k = some v
  | [], _, _, _, h => h
  | l :: ls, st, k, v, h => by
    apply foldl_stepLine_refs_preserve ls
    rcases stepLine_refs_cases st l with hc | ⟨d, hd⟩
    · rw [hc]; exact h
    · rw [hd]; exact lookupRef_insertRef_preserve _ _ _ _ h

theorem renderBlocks_append (l1 l2 : List Block) :
    renderBlocks (l1 ++ l2) = renderBlocks l1 ++ renderBlocks l2 := by
  induction l1 with
  | nil => rfl
  | cons b bs ih => simp [renderBlocks, ih]

/-! ## Claims -/

/-- C1 (amended): in every driver run in which opening input.md,
allocating the buffer and opening output.html all succeed, the conversion
entry point is invoked and the driver afterwards frees each of the two
returned values exactly once; if opening output.html fails, the driver
exits without freeing them (see the counterexample). -/
theorem driver_frees_each_returned_value_once {α : Type}
    (conv : List Nat → MDReturn α) (env : Env)
    (hfin : env.finOk = true) (halloc : env.allocOk = true)
    (hfout : env.foutOk = true) :
    convArg (mainModel conv env).2 = some (env.contents ++ [0]) ∧
    countFree0 (mainModel conv env).2 = 1 ∧
    countFree1 (mainModel conv env).2 = 1 := by
  simp [mainModel, hfin, halloc, hfout, convArg, countFree0, countFree1,
    List.countP_cons, List.countP_nil]

/-- Witness for the amended C1: a fully successful concrete run. -/
theorem driver_frees_each_returned_value_once_witness :
    convArg (mainModel convModel ⟨true, strBytes "hi", true, true, fun _ => []⟩).2 =
      some (strBytes "hi" ++ [0]) ∧
    countFree0 (mainModel convModel ⟨true, strBytes "hi", true, true, fun _ => []⟩).2 = 1 ∧
    countFree1 (mainModel convModel ⟨true, strBytes "hi", true, true, fun _ => []⟩).2 = 1 :=
  driver_frees_each_returned_value_once convModel
    ⟨true, strBytes "hi", true, true, fun _ => []⟩ rfl rfl rfl

/-- Counterexample to C1 as stated: in the driver run where input.md is
read and the conversion is called but opening output.html fails, the
driver returns without freeing either returned value — the "releases each
exactly once after the call" part does not hold for every run. -/
theorem driver_leaks_when_output_open_fails :
    (∃ a, Ev.convCall a ∈
      (mainModel convModel ⟨true, strBytes "hi", true, false, fun _ => []⟩).2) ∧
    countFree0 (mainModel convModel ⟨true, strBytes "hi", true, false, fun _ => []⟩).2 = 0 ∧
    countFree1 (mainModel convModel ⟨true, strBytes "hi", true, false, fun _ => []⟩).2 = 0 := by
  refine ⟨⟨strBytes "hi" ++ [0], ?_⟩, ?_, ?_⟩ <;> decide

/-- C2: the conversion entry point is a total function of the input
bytes: for every input byte sequence (the byte type `Nat` puts no UTF-8
validity constraint on inputs) it terminates and returns a normal result,
an HTML byte string paired with a diagnostics list. -/
theorem convert_total (input : List Nat) :
    ∃ (html : List Nat) (diags : List Diagnostic),
      Convert input = (html, diags) :=
  ⟨(Convert input).1, (Convert input).2, Prod.mk.eta.symm⟩

/-- C3: the driver passes the returned HTML to `fprintf` as the format
string. If the HTML contains no `%` byte (37), the bytes written to
output.html are exactly the returned HTML, whatever the unspecified
conversion outputs are; and there is an HTML string containing `%`
(namely `%%`) whose written output differs from it under every possible
conversion behavior. -/
theorem driver_write_faithful_iff_no_percent :
    (∀ (α : Type) (conv : List Nat → MDReturn α) (env : Env),
      env.finOk = true → env.allocOk = true → env.foutOk = true →
      37 ∉ (conv (env.contents ++ [0])).r0 →
      writtenBytes (mainModel conv env).2 =
        some ((conv (env.contents ++ [0])).r0)) ∧
    (∃ s : List Nat, 37 ∈ s ∧ ∀ h : Nat → List Nat, fprintfOut h s ≠ s) := by
  constructor
  · intro α conv env hfin halloc hfout hno
    simp [mainModel, hfin, halloc, hfout, writtenBytes]
    exact fprintfOut_no_percent _ _ hno
  · exact ⟨[37, 37], by simp, fun h => by simp [fprintfOut]⟩

/-- Witness for C3: a concrete successful run whose HTML output contains
no `%` byte is written verbatim. -/
theorem driver_write_faithful_iff_no_percent_witness :
    writtenBytes (mainModel convModel ⟨true, strBytes "hi", true, true, fun _ => []⟩).2 =
      some ((convModel (strBytes "hi" ++ [0])).r0) :=
  driver_write_faithful_iff_no_percent.1 (List Diagnostic) convModel
    ⟨true, strBytes "hi", true, true, fun _ => []⟩ rfl rfl rfl (by decide)

/-- C4: the conversion is deterministic — it is a function of the input
bytes alone, so two runs on equal inputs produce byte-identical HTML and
equal diagnostics. -/
theorem convert_deterministic (a b : List Nat) (h : a = b) :
    (Convert a).1 = (Convert b).1 ∧ (Convert a).2 = (Convert b).2 := by
  subst h
  exact ⟨rfl, rfl⟩

/-- Witness for C4 at a concrete input. -/
theorem convert_deterministic_witness :
    (Convert (strBytes "# Hi\n")).1 = (Convert (strBytes "# Hi\n")).1 ∧
    (Convert (strBytes "# Hi\n")).2 = (Convert (strBytes "# Hi\n")).2 :=
  convert_deterministic (strBytes "# Hi\n") (strBytes "# Hi\n") rfl

/-- C5: rendering a fixed block/inline tree is idempotent — two renders
of the same tree are byte-identical — and total: every tree renders to
some output string (rendering cannot fail). -/
theorem render_idempotent_and_total (t : List Block) :
    renderBlocks t = renderBlocks t ∧ ∃ out : List Nat, renderBlocks t = out :=
  ⟨rfl, renderBlocks t, rfl⟩

/-- C6: converting "`<script>`\n" escapes the angle brackets inside the
code span (`&lt;script&gt;`) and the raw bytes `<script>` never appear in
the output; in general the renderer entity-escapes `&` `<` `>` `"` in
literal text and emits raw-HTML nodes verbatim. -/
theorem code_span_escapes_angle_brackets :
    (Convert (strBytes "`<script>`\n")).1 =
      strBytes "<p><code>&lt;script&gt;</code></p>\n" ∧
    containsSeq (strBytes "<script>") (Convert (strBytes "`<script>`\n")).1 = false ∧
    containsSeq (strBytes "&lt;script&gt;") (Convert (strBytes "`<script>`\n")).1 = true ∧
    (∀ s : List Nat, renderInline (Inline.Text s) = escBytes s) ∧
    (∀ s : List Nat, renderInline (Inline.RawInlineHTML s) = s) ∧
    escByte 38 = strBytes "&amp;" ∧ escByte 60 = strBytes "&lt;" ∧
    escByte 62 = strBytes "&gt;" ∧ escByte 34 = strBytes "&quot;" := by
  refine ⟨by decide, by decide, by decide, fun s => ?_, fun s => ?_,
    rfl, rfl, rfl, rfl⟩ <;> simp [renderInline]

/-- C7: the reference table is first-definition-wins. Building the table
by inserting a list of definitions maps a normalized key to the
destination and title of the first definition with that key; and during
block parsing, once a key is bound in the table, no later line (in
particular no duplicate definition) ever changes its binding. -/
theorem reference_table_first_definition_wins :
    (∀ (defs : List RefDef) (k : List Nat) (d : RefDef),
        firstDef k defs = some d →
        lookupRef (defs.foldl insertRef []) k = some (d.dest, d.title)) ∧
    (∀ (ls : List (List Nat)) (st : PState) (k : List Nat)
        (v : List Nat × Option (List Nat)),
        lookupRef st.refs k = some v →
        lookupRef (ls.foldl stepLine st).refs k = some v) :=
  ⟨fun defs k d h => foldl_insertRef_first defs [] k d rfl h,
   fun ls st k v h => foldl_stepLine_refs_preserve ls st k v h⟩

/-- Witness for C7: two definitions whose labels normalize to the same
key (`a` and `A`); the table keeps the first destination and title, and
parsing further lines (a duplicate definition line) preserves the
binding. -/
theorem reference_table_first_definition_wins_witness :
    lookupRef
      (([⟨strBytes "a", strBytes "/u1", some (strBytes "t1")⟩,
         ⟨strBytes "A", strBytes "/u2", none⟩] : List RefDef).foldl insertRef [])
      (strBytes "a") = some (strBytes "/u1", some (strBytes "t1")) ∧
    lookupRef
      (([strBytes "[A]: /u2"] : List (List Nat)).foldl stepLine
        ⟨[], [], none, [(strBytes "a", strBytes "/u1", some (strBytes "t1"))]⟩).refs
      (strBytes "a") = some (strBytes "/u1", some (strBytes "t1")) :=
  ⟨reference_table_first_definition_wins.1
      [⟨strBytes "a", strBytes "/u1", some (strBytes "t1")⟩,
       ⟨strBytes "A", strBytes "/u2", none⟩]
      (strBytes "a") ⟨strBytes "a", strBytes "/u1", some (strBytes "t1")⟩
      (by decide),
   reference_table_first_definition_wins.2
      [strBytes "[A]: /u2"]
      ⟨[], [], none, [(strBytes "a", strBytes "/u1", some (strBytes "t1"))]⟩
      (strBytes "a") (strBytes "/u1", some (strBytes "t1")) (by decide)⟩

/-- C8: whenever the parser state at end-of-input still has an open
fenced code block, finalization closes it at the document boundary: the
HTML output ends with the rendered code block containing the accumulated
(escaped) content, and the diagnostics list is exactly one unterminated-
fence diagnostic. -/
theorem unterminated_fence_closed_at_eof (input : List Nat) (f : FenceState)
    (h : (parseRun input).fence = some f) :
    ∃ bs : List Block,
      (Convert input).1 =
        renderBlocks bs ++
          (strBytes "<pre><code>" ++ escBytes (joinNL f.content.reverse) ++
            strBytes "</code></pre>\n") ∧
      (Convert input).2 = [fenceDiag] := by
  have hf : (closePara (parseRun input)).fence = some f := by
    rw [closePara_fence]
    exact h
  refine ⟨(closePara (parseRun input)).done.reverse, ?_, ?_⟩ <;>
    simp [Convert, finalize, hf, renderBlocks_append, renderBlocks, renderBlock]

/-- Witness for C8: the input "```\nabc" ends inside an open fence; its
content is rendered and exactly one diagnostic is returned. -/
theorem unterminated_fence_closed_at_eof_witness :
    (parseRun (strBytes "```\nabc")).fence = some ⟨96, 3, [], [strBytes "abc"]⟩ ∧
    ∃ bs : List Block,
      (Convert (strBytes "```\nabc")).1 =
        renderBlocks bs ++
          (strBytes "<pre><code>" ++
            escBytes (joinNL ([strBytes "abc"] : List (List Nat)).reverse) ++
            strBytes "</code></pre>\n") ∧
      (Convert (strBytes "```\nabc")).2 = [fenceDiag] :=
  ⟨by decide,
   unterminated_fence_closed_at_eof (strBytes "```\nabc")
     ⟨96, 3, [], [strBytes "abc"]⟩ (by decide)⟩

/-- C9: in every driver run where opening input.md and the allocation
succeed, the argument passed to the conversion entry point is the file's
bytes followed by a terminating 0 byte: its first `size` bytes are the
file contents and the byte at index `size` is 0. -/
theorem driver_passes_nul_terminated_buffer {α : Type}
    (conv : List Nat → MDReturn α) (env : Env)
    (hfin : env.finOk = true) (halloc : env.allocOk = true) :
    ∃ buf : List Nat,
      convArg (mainModel conv env).2 = some buf ∧
      buf.take env.contents.length = env.contents ∧
      buf.drop env.contents.length = [0] ∧
      buf.length = env.contents.length + 1 := by
  refine ⟨env.contents ++ [0], ?_, ?_, ?_, ?_⟩
  · cases hfout : env.foutOk <;>
      simp [mainModel, hfin, halloc, hfout, convArg]
  · exact List.take_left env.contents [0]
  · exact List.drop_left env.contents [0]
  · simp

/-- Witness for C9 at a concrete run. -/
theorem driver_passes_nul_terminated_buffer_witness :
    ∃ buf : List Nat,
      convArg (mainModel convModel ⟨true, strBytes "hi", true, true, fun _ => []⟩).2 =
        some buf ∧
      buf.take (strBytes "hi").length = strBytes "hi" ∧
      buf.drop (strBytes "hi").length = [0] ∧
      buf.length = (strBytes "hi").length + 1 :=
  driver_passes_nul_terminated_buffer convModel
    ⟨true, strBytes "hi", true, true, fun _ => []⟩ rfl rfl

/-- C10: the driver's exit status is −1 exactly when opening input.md
fails, the buffer allocation fails, or opening output.html fails, and 0
exactly when all three succeed; and when it fails before the conversion
step (input.md or allocation), the conversion entry point is never
invoked. -/
theorem driver_exit_status {α : Type} (conv : List Nat → MDReturn α)
    (env : Env) :
    ((mainModel conv env).1 = -1 ↔
      (env.finOk = false ∨ env.allocOk = false ∨ env.foutOk = false)) ∧
    ((mainModel conv env).1 = 0 ↔
      (env.finOk = true ∧ env.allocOk = true ∧ env.foutOk = true)) ∧
    ((env.finOk = false ∨ env.allocOk = false) →
      convArg (mainModel conv env).2 = none) := by
  obtain ⟨f, c, a, o, hf⟩ := env
  cases f <;> cases a <;> cases o <;>
    simp [mainModel, convArg]

/-- Witness for C10: the concrete run where input.md cannot be opened
exits −1 without invoking the conversion. -/
theorem driver_exit_status_witness :
    ((mainModel convModel ⟨false, [], true, true, fun _ => []⟩).1 = -1 ↔
      ((false : Bool) = false ∨ (true : Bool) = false ∨ (true : Bool) = false)) ∧
    ((mainModel convModel ⟨false, [], true, true, fun _ => []⟩).1 = 0 ↔
      ((false : Bool) = true ∧ (true : Bool) = true ∧ (true : Bool) = true)) ∧
    (((false : Bool) = false ∨ (true : Bool) = false) →
      convArg (mainModel convModel ⟨false, [], true, true, fun _ => []⟩).2 = none) :=
  driver_exit_status convModel ⟨false, [], true, true, fun _ => []⟩

end IMD1
